import Mathlib

/-!
Verification of the playlist / EPG channel matcher.

The program is modelled as a shallow embedding: strings are lists of
characters, JavaScript numbers used for similarity scores are modelled
as rationals, and each source function is translated into a Lean
definition of the same name.  The source file contains two concatenated
scripts: a fuzzy-matching pipeline (parseM3U, fuzzyMatch,
levenshteinDistance, matchChannels, generateCorrectedM3U) and a manual
override pipeline (a second parseM3U, here parseM3Uv2, with
manualMappings and generateCleanM3U).
-/

namespace Matcher

/-- The double-quote character, written numerically so that string
literals in this file never need an escaped quote. -/
def dquote : Char := Char.ofNat 34

/-- Whitespace test used to model the JavaScript `trim()` and the `\s`
character class on the character sets these inputs use. -/
def isWs (c : Char) : Bool :=
  c = ' ' || c = '\t' || c = '\n' || c = '\r' || c = '\x0b' || c = '\x0c'

/-- Model of `String.prototype.trim`: drop whitespace from both ends. -/
def trimCh (l : List Char) : List Char :=
  ((l.dropWhile isWs).reverse.dropWhile isWs).reverse

/-- Does `pat` occur at the very start of `l`?  (Helper for substring
search, modelling anchored literal matching.) -/
def prefAt : List Char → List Char → Bool
  | [], _ => true
  | _ :: _, [] => false
  | a :: as, b :: bs => a = b && prefAt as bs

/-- Model of `big.includes(small)` for JavaScript strings: contiguous
containment, with the empty string contained in everything. -/
def hasSub : List Char → List Char → Bool
  | [], small => small.isEmpty
  | b :: bs, small => prefAt small (b :: bs) || hasSub bs small

/-- Find the first occurrence of `pat` and return the remainder of the
list after it (models leftmost literal regex search). -/
def afterFirst (pat : List Char) : List Char → Option (List Char)
  | [] => if prefAt pat [] then some [] else none
  | c :: cs =>
    if prefAt pat (c :: cs) then some ((c :: cs).drop pat.length)
    else afterFirst pat cs

/-- Model of `content.split("\n")`: note that splitting the empty string
yields one empty piece, exactly as in JavaScript. -/
def splitNl : List Char → List (List Char)
  | [] => [[]]
  | c :: cs =>
    if c = '\n' then [] :: splitNl cs
    else
      match splitNl cs with
      | [] => [[c]]
      | h :: t => (c :: h) :: t

/-- Source, fuzzyMatch lines 63-64: lowercase and delete every character
that is not a lowercase ASCII letter or digit. -/
def normalize (s : List Char) : List Char :=
  (s.map Char.toLower).filter fun c =>
    ('a' ≤ c && c ≤ 'z') || ('0' ≤ c && c ≤ '9')

/-- One row step of the dynamic-programming matrix of
`levenshteinDistance` (source lines 90-102): given row `i` of the matrix
as the function `prev`, compute entry `j` of row `i+1`.  `str2` indexes
rows, `str1` indexes columns, exactly as in the source. -/
def levRowStep (str1 str2 : List Char) (prev : Nat → Nat) (i : Nat) : Nat → Nat
  | 0 => i + 1
  | j + 1 =>
    if str2[i]? = str1[j]? then prev j
    else min (prev j + 1) (min (levRowStep str1 str2 prev i j + 1) (prev (j + 1) + 1))

/-- Entry `matrix[i][j]` of the dynamic-programming matrix built by
`levenshteinDistance` (source lines 80-102). -/
def levCell (str1 str2 : List Char) : Nat → Nat → Nat
  | 0 => fun j => j
  | i + 1 => levRowStep str1 str2 (levCell str1 str2 i) i

/-- Source lines 79-105: the function returns
`matrix[str2.length][str1.length]`. -/
def levenshteinDistance (str1 str2 : List Char) : Nat :=
  levCell str1 str2 str2.length str1.length

/-- Source lines 62-77, after the two normalizations: exact match gives
1.0, mutual containment gives 0.8, otherwise the edit-distance score
`(longer.length - editDistance) / longer.length`. -/
def fuzzyCore (s1 s2 : List Char) : ℚ :=
  if s1 = s2 then 1
  else if hasSub s1 s2 || hasSub s2 s1 then 8/10
  else
    let longer := if s1.length > s2.length then s1 else s2
    let shorter := if s1.length > s2.length then s2 else s1
    if longer.length = 0 then 1
    else ((longer.length : ℚ) - (levenshteinDistance longer shorter : ℚ)) / (longer.length : ℚ)

/-- Source lines 62-77: `fuzzyMatch(str1, str2)`. -/
def fuzzyMatch (str1 str2 : List Char) : ℚ :=
  fuzzyCore (normalize str1) (normalize str2)

-- Matrix recurrence equations, proved once and reused by every proof
-- about `levCell`.

theorem levCell_zero_left (s t : List Char) (j : Nat) : levCell s t 0 j = j := rfl

theorem levCell_succ_zero (s t : List Char) (i : Nat) : levCell s t (i + 1) 0 = i + 1 := rfl

theorem levCell_zero_right (s t : List Char) (i : Nat) : levCell s t i 0 = i := by
  cases i with
  | zero => rfl
  | succ i => rfl

theorem levCell_succ_succ (s t : List Char) (i j : Nat) :
    levCell s t (i + 1) (j + 1) =
      if t[i]? = s[j]? then levCell s t i j
      else min (levCell s t i j + 1)
          (min (levCell s t (i + 1) j + 1) (levCell s t i (j + 1) + 1)) := rfl

/-- The matrix entry `matrix[i][j]` is bounded by `max i j`: each step
either copies the diagonal or adds one to a neighbour. -/
theorem levCell_le_max (s t : List Char) :
    ∀ n i j, i + j ≤ n → levCell s t i j ≤ max i j := by
  intro n
  induction n with
  | zero =>
    intro i j h
    have hi : i = 0 := by omega
    have hj : j = 0 := by omega
    subst hi; subst hj
    simp [levCell_zero_left]
  | succ n ih =>
    intro i j h
    match i, j with
    | 0, j => simp [levCell_zero_left]
    | i + 1, 0 => simp [levCell_succ_zero]
    | i + 1, j + 1 =>
      rw [levCell_succ_succ]
      have hd : levCell s t i j ≤ max i j := ih i j (by omega)
      by_cases hc : t[i]? = s[j]?
      · rw [if_pos hc]
        omega
      · rw [if_neg hc]
        have h1 := Nat.min_le_left (levCell s t i j + 1)
          (min (levCell s t (i + 1) j + 1) (levCell s t i (j + 1) + 1))
        omega

/-- The Levenshtein distance computed by the source never exceeds the
length of the longer input. -/
theorem levenshteinDistance_le_max (str1 str2 : List Char) :
    levenshteinDistance str1 str2 ≤ max str1.length str2.length := by
  have h := levCell_le_max str1 str2 (str2.length + str1.length)
    str2.length str1.length (le_refl _)
  unfold levenshteinDistance
  omega

/-- The dynamic-programming matrix is symmetric in the two strings,
with rows and columns exchanged. -/
theorem levCell_symm (s t : List Char) :
    ∀ n i j, i + j ≤ n → levCell s t i j = levCell t s j i := by
  intro n
  induction n with
  | zero =>
    intro i j h
    have hi : i = 0 := by omega
    have hj : j = 0 := by omega
    subst hi; subst hj
    rfl
  | succ n ih =>
    intro i j h
    match i, j with
    | 0, j => rw [levCell_zero_left, levCell_zero_right]
    | i + 1, 0 => rw [levCell_zero_right, levCell_zero_left]
    | i + 1, j + 1 =>
      rw [levCell_succ_succ, levCell_succ_succ]
      have hd := ih i j (by omega)
      have hl := ih (i + 1) j (by omega)
      have hu := ih i (j + 1) (by omega)
      by_cases hc : t[i]? = s[j]?
      · rw [if_pos hc, if_pos hc.symm, hd]
      · rw [if_neg hc, if_neg (fun hcc => hc hcc.symm), hd, hl, hu,
          Nat.min_comm (levCell t s j (i + 1) + 1) (levCell t s (j + 1) i + 1)]

/-- `levenshteinDistance` is symmetric. -/
theorem levenshteinDistance_symm (str1 str2 : List Char) :
    levenshteinDistance str1 str2 = levenshteinDistance str2 str1 :=
  levCell_symm str1 str2 (str2.length + str1.length) str2.length str1.length (le_refl _)

/-- Source lines 33-34: a parsed playlist entry. -/
structure PlaylistChannel where
  name : List Char
  tvgId : List Char
  streamUrl : List Char
  deriving DecidableEq

/-- Source lines 50-54: a parsed EPG channel. -/
structure EpgChannel where
  id : List Char
  displayName : List Char
  deriving DecidableEq

/-- Source lines 125-132: one successful match record. -/
structure MatchResult where
  playlistName : List Char
  playlistTvgId : List Char
  epgId : List Char
  epgName : List Char
  score : ℚ
  streamUrl : List Char
  deriving DecidableEq

/-- Source lines 273-287 (second script): a playlist entry enriched by
the manual override table. -/
structure MappedChannel where
  originalName : List Char
  cleanName : List Char
  tvgId : List Char
  streamUrl : List Char
  hasTvgId : Bool
  deriving DecidableEq

/-- The inner forEach of `matchChannels` (source lines 113-122): fold
over the EPG candidates carrying the mutable `bestMatch` / `bestScore`
variables. -/
def findAux (p : PlaylistChannel) (best : Option EpgChannel) (bestScore : ℚ) :
    List EpgChannel → Option EpgChannel × ℚ
  | [] => (best, bestScore)
  | e :: rest =>
    let score := fuzzyMatch p.name e.displayName
    if score > bestScore ∧ score > 6/10 then findAux p (some e) score rest
    else findAux p best bestScore rest

/-- The candidate search for one playlist channel, starting from
`bestMatch = null`, `bestScore = 0`. -/
def findBest (p : PlaylistChannel) (es : List EpgChannel) : Option EpgChannel × ℚ :=
  findAux p none 0 es

/-- Source lines 108-139: `matchChannels(playlistChannels, epgChannels)`
returns the pair (matches, unmatched), both in playlist order. -/
def matchChannels : List PlaylistChannel → List EpgChannel →
    List MatchResult × List PlaylistChannel
  | [], _ => ([], [])
  | p :: ps, es =>
    let r := matchChannels ps es
    match findBest p es with
    | (some e, s) =>
      (⟨p.name, p.tvgId, e.id, e.displayName, s, p.streamUrl⟩ :: r.1, r.2)
    | (none, _) => (r.1, p :: r.2)

/-- The header line of the corrected playlist (source line 143). -/
def correctedHeader : List Char :=
  "#EXTM3U url-tvg=".toList ++ [dquote] ++ "fr_epg.xml".toList ++ [dquote]

/-- The #EXTINF line emitted for a match (source line 146). -/
def matchLine (m : MatchResult) : List Char :=
  "#EXTINF:-1 tvg-id=".toList ++ [dquote] ++ m.epgId ++ [dquote, ','] ++ m.playlistName

/-- The #EXTINF line emitted for an unmatched channel (source line 152). -/
def unmatchedLine (c : PlaylistChannel) : List Char :=
  "#EXTINF:-1,".toList ++ c.name

/-- Source lines 142-157: `generateCorrectedM3U(matches, unmatched)`.
The output string is modelled as its list of lines; each `m3u += ...`
of the source appends one line. -/
def generateCorrectedM3U (matched : List MatchResult)
    (unmatched : List PlaylistChannel) : List (List Char) :=
  let afterMatches :=
    matched.foldl (fun acc m => acc ++ [matchLine m, m.streamUrl]) [correctedHeader]
  unmatched.foldl (fun acc c => acc ++ [unmatchedLine c, c.streamUrl]) afterMatches

/-- `line.startsWith("#EXTINF:")` (source line 25). -/
def startsWithExtinf (line : List Char) : Bool :=
  prefAt "#EXTINF:".toList line

/-- The literal searched for by the regex `tvg-id="([^"]*)"`. -/
def tvgAttr : List Char := "tvg-id=".toList ++ [dquote]

/-- Source line 26-29: the capture of `line.match(/tvg-id="([^"]*)"/)`,
or the empty string when the regex does not match.  The regex matches
iff the literal `tvg-id="` occurs and a closing quote follows its first
occurrence (if no quote follows the first occurrence, no later
occurrence of the literal can exist either, since the literal itself
ends in a quote). -/
def extractTvgId (line : List Char) : List Char :=
  match afterFirst tvgAttr line with
  | none => []
  | some r =>
    match r.dropWhile (· ≠ dquote) with
    | [] => []
    | _ :: _ => r.takeWhile (· ≠ dquote)

/-- Source lines 27-30: the capture of `line.match(/,(.*)$/)` trimmed,
or the empty string when the line has no comma: everything after the
first comma. -/
def extractName (line : List Char) : List Char :=
  match afterFirst [','] line with
  | none => []
  | some r => trimCh r

/-- The loop of `parseM3U` (source lines 22-37) over the split lines.
`lines[i+1]?.trim() || ""` is the trimmed next line, or empty when
there is none. -/
def parseLines : List (List Char) → List PlaylistChannel
  | [] => []
  | l :: rest =>
    let line := trimCh l
    if startsWithExtinf line then
      let tvgId := extractTvgId line
      let name := extractName line
      let streamUrl := match rest with | [] => [] | nxt :: _ => trimCh nxt
      if name ≠ [] ∧ streamUrl ≠ [] then
        ⟨name, tvgId, streamUrl⟩ :: parseLines rest
      else parseLines rest
    else parseLines rest

/-- Source lines 18-40: `parseM3U(content)` of the first script. -/
def parseM3U (content : List Char) : List PlaylistChannel :=
  parseLines (splitNl content)

/-- Try to match the regex `\s*X[^Y]*Y` (with `op` = X, `cl` = Y) at the
head of `l`; on success return the remainder after the match.  Greedy
`\s*` must be followed by the opening character, and the body runs to
the first closing character, which must exist. -/
def tryAnn (op cl : Char) (l : List Char) : Option (List Char) :=
  match l.dropWhile isWs with
  | c :: r2 =>
    if c = op then
      match r2.dropWhile (· ≠ cl) with
      | c2 :: r4 => if c2 = cl then some r4 else none
      | [] => none
    else none
  | [] => none

/-- Global replacement of `\s*X[^Y]*Y` by the empty string: scan left to
right, at each position either removing a match or keeping the head
character.  Fuel-structured recursion; the fuel starts at the length of
the list and a successful `tryAnn` consumes at least two characters, so
the fuel never runs out. -/
def stripAnnFuel (op cl : Char) : Nat → List Char → List Char
  | 0, l => l
  | _ + 1, [] => []
  | fuel + 1, c :: cs =>
    match tryAnn op cl (c :: cs) with
    | some r => stripAnnFuel op cl fuel r
    | none => c :: stripAnnFuel op cl fuel cs

/-- Remove every `\s*X[^Y]*Y` occurrence from `l`. -/
def stripAnn (op cl : Char) (l : List Char) : List Char :=
  stripAnnFuel op cl l.length l

/-- Source lines 273-276: the cleaned channel name — remove
parenthesized annotations, then bracketed ones, then trim. -/
def cleanNameOf (name : List Char) : List Char :=
  trimCh (stripAnn '[' ']' (stripAnn '(' ')' name))

/-- Source lines 221-256: the static override table, in source order. -/
def manualMappings : List (List Char × List Char) :=
  [ ("TF1".toList, "TF1.fr".toList)
  , ("TF1 HD".toList, "TF1.fr".toList)
  , ("France 2".toList, "France2.fr".toList)
  , ("France 2 HD".toList, "France2.fr".toList)
  , ("France 3".toList, "France3.fr".toList)
  , ("France 3 HD".toList, "France3.fr".toList)
  , ("France 4".toList, "France4.fr".toList)
  , ("France 4 HD".toList, "France4.fr".toList)
  , ("France 5".toList, "France5.fr".toList)
  , ("France 5 HD".toList, "France5.fr".toList)
  , ("M6".toList, "M6.fr".toList)
  , ("Arte".toList, "Arte.fr".toList)
  , ("BFM TV".toList, "BFMTV.fr".toList)
  , ("BFMTV".toList, "BFMTV.fr".toList)
  , ("CNews".toList, "CNews.fr".toList)
  , ("CNEWS".toList, "CNews.fr".toList)
  , ("LCI".toList, "LCI.fr".toList)
  , ("RMC Story".toList, "RMCStory.fr".toList)
  , ("RMC Découverte".toList, "RMCDecouverte.fr".toList)
  , ("W9".toList, "W9.fr".toList)
  , ("TMC".toList, "TMC.fr".toList)
  , ("NT1".toList, "NT1.fr".toList)
  , ("NRJ 12".toList, "NRJ12.fr".toList)
  , ("Canal+".toList, "CanalPlus.fr".toList)
  , ("Canal+ France".toList, "CanalPlus.fr".toList)
  , ("Euronews".toList, "EuronewsFrench.fr".toList)
  , ("France 24".toList, "France24.fr".toList)
  , ("France 24 French".toList, "France24.fr".toList)
  , ("TV5Monde".toList, "TV5MondeFranceBelgiqueSuisseMonaco.fr".toList)
  , ("Gulli".toList, "Gulli.fr".toList)
  , ("L\x27Equipe".toList, "LEquipe.fr".toList)
  , ("Cherie 25".toList, "Cherie25.fr".toList)
  , ("Chérie 25".toList, "Cherie25.fr".toList)
  , ("6ter".toList, "6ter.fr".toList)
  ]

/-- First-match association lookup, modelling a JavaScript object
property read on `manualMappings`. -/
def assocFind (k : List Char) : List (List Char × List Char) → Option (List Char)
  | [] => none
  | (k2, v) :: rest => if k = k2 then some v else assocFind k rest

/-- `manualMappings[k]` as an optional value. -/
def lookupMM (k : List Char) : Option (List Char) :=
  assocFind k manualMappings

/-- JavaScript `a || b` where `a` is an optional string and a present
empty string is falsy. -/
def jsOr (a : Option (List Char)) (b : List Char) : List Char :=
  match a with
  | some v => if v.isEmpty then b else v
  | none => b

/-- Source line 279:
`manualMappings[cleanName] || manualMappings[name] || ""`. -/
def resolveTvgId (name : List Char) : List Char :=
  jsOr (lookupMM (cleanNameOf name)) (jsOr (lookupMM name) [])

/-- The loop of the second-script `parseM3U` (source lines 263-290):
same line handling as the first script, but no tvg-id extraction, and
each kept entry is enriched with the cleaned name and the override
lookup. -/
def parseLines2 : List (List Char) → List MappedChannel
  | [] => []
  | l :: rest =>
    let line := trimCh l
    if startsWithExtinf line then
      let name := extractName line
      let streamUrl := match rest with | [] => [] | nxt :: _ => trimCh nxt
      if name ≠ [] ∧ streamUrl ≠ [] then
        let cleanName := cleanNameOf name
        let tvgId := resolveTvgId name
        ⟨name, cleanName, tvgId, streamUrl, !tvgId.isEmpty⟩ :: parseLines2 rest
      else parseLines2 rest
    else parseLines2 rest

/-- Source lines 259-293: `parseM3U(content)` of the second script. -/
def parseM3Uv2 (content : List Char) : List MappedChannel :=
  parseLines2 (splitNl content)

/-- The #EXTINF line emitted for a resolved channel (source line 305). -/
def cleanLineG (c : MappedChannel) : List Char :=
  "#EXTINF:-1 tvg-id=".toList ++ [dquote] ++ c.tvgId ++ [dquote, ','] ++ c.originalName

/-- The #EXTINF line emitted for an unresolved channel (source
line 312). -/
def cleanLineU (c : MappedChannel) : List Char :=
  "#EXTINF:-1,".toList ++ c.originalName

/-- Source lines 296-317: `generateCleanM3U(channels)`, returning the
output lines together with the two partitions.  The `'...\n\n'` header
and the `'\n# ...'` section separator each contribute an empty line. -/
def generateCleanM3U (channels : List MappedChannel) :
    List (List Char) × List MappedChannel × List MappedChannel :=
  let goodChannels := channels.filter fun ch => ch.hasTvgId
  let unknownChannels := channels.filter fun ch => !ch.hasTvgId
  let l0 : List (List Char) := [correctedHeader, [], "# CHANNELS WITH EPG".toList]
  let l1 := goodChannels.foldl (fun acc ch => acc ++ [cleanLineG ch, ch.streamUrl]) l0
  let l2 := l1 ++ [[], "# CHANNELS WITHOUT EPG".toList]
  let l3 := (unknownChannels.take 10).foldl
    (fun acc ch => acc ++ [cleanLineU ch, ch.streamUrl]) l2
  (l3, goodChannels, unknownChannels)

/-- The playlist channel data carried inside a match record. -/
def toPlaylistChannel (m : MatchResult) : PlaylistChannel :=
  ⟨m.playlistName, m.playlistTvgId, m.streamUrl⟩

/-- Modelled from the spec: the record built for one pair (line, next
line), present exactly when the directive marker, a non-empty trailing
name and a non-empty trimmed following line are all present. -/
def mkChanRec (p : List Char × List Char) : Option PlaylistChannel :=
  let line := trimCh p.1
  let streamUrl := trimCh p.2
  if startsWithExtinf line ∧ extractName line ≠ [] ∧ streamUrl ≠ [] then
    some ⟨extractName line, extractTvgId line, streamUrl⟩
  else none

/-- Modelled from the spec: parsing pairs every line with its successor
(the last line with an empty one) and keeps the complete records. -/
def parseM3Uspec (content : List Char) : List PlaylistChannel :=
  let ls := splitNl content
  (ls.zip (ls.drop 1 ++ [[]])).filterMap mkChanRec

/-- Modelled from the spec (Override Resolver): look up the cleaned
name, fall back to the original name, else the empty id. -/
def overrideSpecLookup (name : List Char) : List Char :=
  match lookupMM (cleanNameOf name) with
  | some v => v
  | none =>
    match lookupMM name with
    | some v => v
    | none => []

-- Range of the edit-distance branch.

theorem editBranch_range (lo sh : List Char) (hle : sh.length ≤ lo.length) :
    0 ≤ (if lo.length = 0 then (1:ℚ)
           else ((lo.length : ℚ) - (levenshteinDistance lo sh : ℚ)) / (lo.length : ℚ)) ∧
      (if lo.length = 0 then (1:ℚ)
           else ((lo.length : ℚ) - (levenshteinDistance lo sh : ℚ)) / (lo.length : ℚ)) ≤ 1 := by
  by_cases h0 : lo.length = 0
  · rw [if_pos h0]
    norm_num
  · rw [if_neg h0]
    have hd : levenshteinDistance lo sh ≤ lo.length := by
      have := levenshteinDistance_le_max lo sh
      omega
    have hdq : (levenshteinDistance lo sh : ℚ) ≤ (lo.length : ℚ) := by exact_mod_cast hd
    have hL : (0:ℚ) < (lo.length : ℚ) := by
      have : 0 < lo.length := Nat.pos_of_ne_zero h0
      exact_mod_cast this
    constructor
    · apply div_nonneg _ hL.le
      linarith
    · rw [div_le_one hL]
      have : (0:ℚ) ≤ (levenshteinDistance lo sh : ℚ) := by positivity
      linarith

theorem fuzzyCore_range (s1 s2 : List Char) :
    0 ≤ fuzzyCore s1 s2 ∧ fuzzyCore s1 s2 ≤ 1 := by
  unfold fuzzyCore
  by_cases h1 : s1 = s2
  · rw [if_pos h1]
    norm_num
  · rw [if_neg h1]
    by_cases h2 : (hasSub s1 s2 || hasSub s2 s1) = true
    · rw [if_pos h2]
      norm_num
    · rw [if_neg h2]
      exact editBranch_range (if s1.length > s2.length then s1 else s2)
        (if s1.length > s2.length then s2 else s1) (by split <;> omega)

/-- C3: for every pair of strings the fuzzy score lies in the closed
interval [0, 1]; the edit-distance branch is never negative because the
computed Levenshtein distance never exceeds the longer length. -/
theorem c3_fuzzyMatch_range (a b : List Char) :
    0 ≤ fuzzyMatch a b ∧ fuzzyMatch a b ≤ 1 ∧
      levenshteinDistance a b ≤ max a.length b.length :=
  ⟨(fuzzyCore_range (normalize a) (normalize b)).1,
   (fuzzyCore_range (normalize a) (normalize b)).2,
   levenshteinDistance_le_max a b⟩

-- Symmetry of the scorer.

theorem fuzzyCore_symm (s1 s2 : List Char) : fuzzyCore s1 s2 = fuzzyCore s2 s1 := by
  unfold fuzzyCore
  by_cases h1 : s1 = s2
  · rw [if_pos h1, if_pos h1.symm]
  · by_cases h2 : (hasSub s1 s2 || hasSub s2 s1) = true
    · rw [if_neg h1, if_neg (show ¬ s2 = s1 from fun h => h1 h.symm), if_pos h2,
        if_pos (show (hasSub s2 s1 || hasSub s1 s2) = true by
          rw [Bool.or_comm]; exact h2)]
    · rw [if_neg h1, if_neg (show ¬ s2 = s1 from fun h => h1 h.symm), if_neg h2,
        if_neg (show ¬ (hasSub s2 s1 || hasSub s1 s2) = true by
          rw [Bool.or_comm]; exact h2)]
      by_cases hl : s1.length > s2.length
      · have hl2 : ¬ (s2.length > s1.length) := by omega
        simp only [if_pos hl, if_neg hl2]
      · by_cases hl2 : s2.length > s1.length
        · simp only [if_neg hl, if_pos hl2]
        · have he : s2.length = s1.length := by omega
          simp only [if_neg hl, if_neg hl2]
          rw [he, levenshteinDistance_symm s2 s1]

/-- C9: `fuzzyMatch` is symmetric in its two arguments, including the
edit-distance branch. -/
theorem c9_fuzzyMatch_symm (a b : List Char) : fuzzyMatch a b = fuzzyMatch b a :=
  fuzzyCore_symm (normalize a) (normalize b)

-- Characterization of the best-candidate fold.

theorem findAux_step (p : PlaylistChannel) (best : Option EpgChannel) (bs : ℚ)
    (e : EpgChannel) (rest : List EpgChannel) :
    findAux p best bs (e :: rest) =
      if fuzzyMatch p.name e.displayName > bs ∧ fuzzyMatch p.name e.displayName > 6/10
      then findAux p (some e) (fuzzyMatch p.name e.displayName) rest
      else findAux p best bs rest := rfl

theorem findAux_spec (p : PlaylistChannel) :
    ∀ (es : List EpgChannel) (best : Option EpgChannel) (bs : ℚ),
    (findAux p best bs es = (best, bs) ∧
      ∀ x ∈ es, fuzzyMatch p.name x.displayName ≤ bs ∨
        fuzzyMatch p.name x.displayName ≤ 6/10) ∨
    (∃ l e r, es = l ++ e :: r ∧
      findAux p best bs es = (some e, fuzzyMatch p.name e.displayName) ∧
      bs < fuzzyMatch p.name e.displayName ∧
      (6:ℚ)/10 < fuzzyMatch p.name e.displayName ∧
      (∀ x ∈ l, fuzzyMatch p.name x.displayName < fuzzyMatch p.name e.displayName) ∧
      (∀ x ∈ r, fuzzyMatch p.name x.displayName ≤ fuzzyMatch p.name e.displayName)) := by
  intro es
  induction es with
  | nil =>
    intro best bs
    left
    exact ⟨rfl, by simp⟩
  | cons e rest ih =>
    intro best bs
    by_cases hc : fuzzyMatch p.name e.displayName > bs ∧
        fuzzyMatch p.name e.displayName > 6/10
    · have hstep : findAux p best bs (e :: rest) =
          findAux p (some e) (fuzzyMatch p.name e.displayName) rest := by
        rw [findAux_step, if_pos hc]
      rcases ih (some e) (fuzzyMatch p.name e.displayName) with
        ⟨heq, hall⟩ | ⟨l, e2, r, hsplit, hres, hgt, hth, hl, hr⟩
      · right
        refine ⟨[], e, rest, rfl, ?_, hc.1, hc.2, by simp, ?_⟩
        · rw [hstep]; exact heq
        · intro x hx
          rcases hall x hx with h | h
          · exact h
          · exact le_trans h (le_of_lt hc.2)
      · right
        refine ⟨e :: l, e2, r, by rw [hsplit]; rfl, ?_, lt_trans hc.1 hgt, hth, ?_, hr⟩
        · rw [hstep]; exact hres
        · intro x hx
          rcases List.mem_cons.1 hx with rfl | hx2
          · exact hgt
          · exact hl x hx2
    · have hstep : findAux p best bs (e :: rest) = findAux p best bs rest := by
        rw [findAux_step, if_neg hc]
      have hfail : fuzzyMatch p.name e.displayName ≤ bs ∨
          fuzzyMatch p.name e.displayName ≤ 6/10 := by
        rcases not_and_or.1 hc with h | h
        · exact Or.inl (not_lt.1 h)
        · exact Or.inr (not_lt.1 h)
      rcases ih best bs with ⟨heq, hall⟩ | ⟨l, e2, r, hsplit, hres, hgt, hth, hl, hr⟩
      · left
        refine ⟨by rw [hstep]; exact heq, ?_⟩
        intro x hx
        rcases List.mem_cons.1 hx with rfl | hx2
        · exact hfail
        · exact hall x hx2
      · right
        refine ⟨e :: l, e2, r, by rw [hsplit]; rfl, by rw [hstep]; exact hres, hgt, hth, ?_, hr⟩
        intro x hx
        rcases List.mem_cons.1 hx with rfl | hx2
        · rcases hfail with h | h
          · exact lt_of_le_of_lt h hgt
          · exact lt_of_le_of_lt h hth
        · exact hl x hx2

theorem findBest_none (p : PlaylistChannel) (es : List EpgChannel) (s0 : ℚ)
    (h : findBest p es = (none, s0)) :
    ∀ e ∈ es, fuzzyMatch p.name e.displayName ≤ 6/10 := by
  rcases findAux_spec p es none 0 with ⟨heq, hall⟩ | ⟨l, e2, r, _, hres, _, _, _, _⟩
  · intro e he
    rcases hall e he with h2 | h2
    · exact le_trans h2 (by norm_num)
    · exact h2
  · rw [findBest] at h
    rw [h] at hres
    exact absurd (congrArg Prod.fst hres) (by simp)

theorem findBest_some (p : PlaylistChannel) (es : List EpgChannel)
    (e : EpgChannel) (s : ℚ) (h : findBest p es = (some e, s)) :
    (6:ℚ)/10 < s ∧ s = fuzzyMatch p.name e.displayName ∧
    (∀ x ∈ es, fuzzyMatch p.name x.displayName ≤ s) ∧
    ∃ l r, es = l ++ e :: r ∧
      ∀ x ∈ l, fuzzyMatch p.name x.displayName < s := by
  rcases findAux_spec p es none 0 with ⟨heq, _⟩ | ⟨l, e2, r, hsplit, hres, _, hth, hl, hr⟩
  · rw [findBest] at h
    rw [h] at heq
    exact absurd (congrArg Prod.fst heq) (by simp)
  · rw [findBest] at h
    rw [h] at hres
    have he2 : e2 = e := by
      have := congrArg Prod.fst hres
      simpa using this.symm
    have hs : s = fuzzyMatch p.name e2.displayName := by
      have := congrArg Prod.snd hres
      simpa using this
    subst he2
    refine ⟨by rw [hs]; exact hth, hs, ?_, l, r, hsplit, ?_⟩
    · intro x hx
      rw [hs, hsplit] at *
      rcases List.mem_append.1 hx with hx2 | hx2
      · exact le_of_lt (hl x hx2)
      · rcases List.mem_cons.1 hx2 with rfl | hx3
        · exact le_refl _
        · exact hr x hx3
    · intro x hx
      rw [hs]
      exact hl x hx

/-- C1: every match record produced by `matchChannels` scores strictly
above the 0.6 threshold; its score is the maximum fuzzy score of the
playlist name over all EPG candidates; the recorded candidate is the
first one attaining that maximum in EPG order; and a playlist channel
for which no candidate scores strictly above 0.6 is placed in
unmatched. -/
theorem c1_matchChannels_invariant (ps : List PlaylistChannel) (es : List EpgChannel) :
    (∀ m ∈ (matchChannels ps es).1,
       (6:ℚ)/10 < m.score ∧
       (∀ x ∈ es, fuzzyMatch m.playlistName x.displayName ≤ m.score) ∧
       ∃ l e r, es = l ++ e :: r ∧ m.epgId = e.id ∧ m.epgName = e.displayName ∧
         m.score = fuzzyMatch m.playlistName e.displayName ∧
         ∀ x ∈ l, fuzzyMatch m.playlistName x.displayName < m.score) ∧
    (∀ p ∈ ps, (∀ e ∈ es, fuzzyMatch p.name e.displayName ≤ 6/10) →
       p ∈ (matchChannels ps es).2) := by
  induction ps with
  | nil => exact ⟨by simp [matchChannels], by simp⟩
  | cons p ps ih =>
    rcases hfb : findBest p es with ⟨ob, s⟩
    cases ob with
    | none =>
      have hrec : matchChannels (p :: ps) es =
          ((matchChannels ps es).1, p :: (matchChannels ps es).2) := by
        simp [matchChannels, hfb]
      constructor
      · intro m hm
        rw [hrec] at hm
        exact ih.1 m hm
      · intro q hq hall
        rw [hrec]
        rcases List.mem_cons.1 hq with rfl | hq2
        · exact List.mem_cons_self _ _
        · exact List.mem_cons_of_mem _ (ih.2 q hq2 hall)
    | some e =>
      obtain ⟨hth, hseq, hmax, l, r, hsplit, hfirst⟩ := findBest_some p es e s hfb
      have hrec : matchChannels (p :: ps) es =
          (⟨p.name, p.tvgId, e.id, e.displayName, s, p.streamUrl⟩ :: (matchChannels ps es).1,
           (matchChannels ps es).2) := by
        simp [matchChannels, hfb]
      constructor
      · intro m hm
        rw [hrec] at hm
        rcases List.mem_cons.1 hm with rfl | hm2
        · exact ⟨hth, hmax, l, e, r, hsplit, rfl, rfl, hseq, hfirst⟩
        · exact ih.1 m hm2
      · intro q hq hall
        rcases List.mem_cons.1 hq with rfl | hq2
        · exfalso
          have he_mem : e ∈ es := by
            rw [hsplit]
            exact List.mem_append_right _ (List.mem_cons_self _ _)
          have hle := hall e he_mem
          rw [← hseq] at hle
          exact absurd hle (not_le.2 hth)
        · rw [hrec]
          exact ih.2 q hq2 hall

/-- Witness for C1 at a concrete input: with no EPG candidates at all,
the playlist channel lands in unmatched. -/
theorem c1_matchChannels_invariant_witness :
    (⟨"X".toList, [], "u".toList⟩ : PlaylistChannel) ∈
      (matchChannels [⟨"X".toList, [], "u".toList⟩] []).2 :=
  (c1_matchChannels_invariant [⟨"X".toList, [], "u".toList⟩] []).2
    ⟨"X".toList, [], "u".toList⟩ (List.mem_cons_self _ _)
    (fun e he => absurd he (List.not_mem_nil e))

-- Rendering helpers: a foldl that appends per-element lines equals the
-- flat map of those lines.

theorem foldl_append_lines {α β : Type} (g : α → List β) :
    ∀ (l : List α) (init : List β),
      l.foldl (fun acc x => acc ++ g x) init = init ++ l.flatMap g := by
  intro l
  induction l with
  | nil => intro init; simp
  | cons x xs ih =>
    intro init
    rw [List.foldl_cons, ih, List.flatMap_cons, List.append_assoc]

theorem prefAt_append (l r : List Char) : prefAt l (l ++ r) = true := by
  induction l with
  | nil => rfl
  | cons a as ih => simp [prefAt, ih]

theorem matchLine_prefix (m : MatchResult) :
    prefAt ("#EXTINF:-1 tvg-id=".toList ++ [dquote]) (matchLine m) = true := by
  rw [matchLine, show "#EXTINF:-1 tvg-id=".toList ++ [dquote] ++ m.epgId ++ [dquote, ','] ++
      m.playlistName =
      ("#EXTINF:-1 tvg-id=".toList ++ [dquote]) ++
        (m.epgId ++ ([dquote, ','] ++ m.playlistName)) from by simp]
  exact prefAt_append _ _

theorem unmatchedLine_prefix (c : PlaylistChannel) :
    prefAt "#EXTINF:-1,".toList (unmatchedLine c) = true := by
  rw [unmatchedLine]
  exact prefAt_append _ _

/-- C5: every parsed playlist channel lands in exactly one of the two
groups of `matchChannels` (the two groups are order-preserving
subsequences of the input that together are a permutation of it), and
the corrected playlist is the header line followed by two lines per
matched channel and then two lines per unmatched channel, the #EXTINF
line carrying a tvg-id attribute exactly in the matched section. -/
theorem c5_partition_render (ps : List PlaylistChannel) (es : List EpgChannel) :
    List.Perm ((matchChannels ps es).1.map toPlaylistChannel ++ (matchChannels ps es).2) ps ∧
    List.Sublist ((matchChannels ps es).1.map toPlaylistChannel) ps ∧
    List.Sublist (matchChannels ps es).2 ps ∧
    generateCorrectedM3U (matchChannels ps es).1 (matchChannels ps es).2 =
      correctedHeader ::
        ((matchChannels ps es).1.flatMap (fun m => [matchLine m, m.streamUrl]) ++
         (matchChannels ps es).2.flatMap (fun c => [unmatchedLine c, c.streamUrl])) ∧
    (∀ m : MatchResult,
      prefAt ("#EXTINF:-1 tvg-id=".toList ++ [dquote]) (matchLine m) = true) ∧
    (∀ c : PlaylistChannel, prefAt "#EXTINF:-1,".toList (unmatchedLine c) = true) := by
  have hrender : ∀ (ms : List MatchResult) (us : List PlaylistChannel),
      generateCorrectedM3U ms us =
        correctedHeader :: (ms.flatMap (fun m => [matchLine m, m.streamUrl]) ++
          us.flatMap (fun c => [unmatchedLine c, c.streamUrl])) := by
    intro ms us
    rw [generateCorrectedM3U]
    rw [foldl_append_lines, foldl_append_lines]
    simp
  have hpart : List.Perm
        ((matchChannels ps es).1.map toPlaylistChannel ++ (matchChannels ps es).2) ps ∧
      List.Sublist ((matchChannels ps es).1.map toPlaylistChannel) ps ∧
      List.Sublist (matchChannels ps es).2 ps := by
    induction ps with
    | nil => exact ⟨by simp [matchChannels], by simp [matchChannels], by simp [matchChannels]⟩
    | cons p ps ih =>
      rcases hfb : findBest p es with ⟨ob, s⟩
      cases ob with
      | none =>
        have hrec : matchChannels (p :: ps) es =
            ((matchChannels ps es).1, p :: (matchChannels ps es).2) := by
          simp [matchChannels, hfb]
        rw [hrec]
        refine ⟨?_, ?_, ?_⟩
        · exact (List.perm_middle).trans (ih.1.cons p)
        · exact ih.2.1.cons p
        · exact ih.2.2.cons₂ p
      | some e =>
        have hrec : matchChannels (p :: ps) es =
            (⟨p.name, p.tvgId, e.id, e.displayName, s, p.streamUrl⟩ ::
              (matchChannels ps es).1, (matchChannels ps es).2) := by
          simp [matchChannels, hfb]
        rw [hrec]
        refine ⟨?_, ?_, ?_⟩
        · exact ih.1.cons p
        · exact ih.2.1.cons₂ p
        · exact ih.2.2.cons p
  exact ⟨hpart.1, hpart.2.1, hpart.2.2, hrender _ _, matchLine_prefix, unmatchedLine_prefix⟩

-- Parsing: the loop over lines equals a filterMap over (line, next line)
-- pairs.

theorem parseLines_single (l : List Char) :
    parseLines [l] =
      if startsWithExtinf (trimCh l) = true then
        if extractName (trimCh l) ≠ [] ∧ ([] : List Char) ≠ [] then
          [⟨extractName (trimCh l), extractTvgId (trimCh l), []⟩]
        else []
      else [] := rfl

theorem parseLines_cons_cons (l nxt : List Char) (rest2 : List (List Char)) :
    parseLines (l :: nxt :: rest2) =
      if startsWithExtinf (trimCh l) = true then
        if extractName (trimCh l) ≠ [] ∧ trimCh nxt ≠ [] then
          ⟨extractName (trimCh l), extractTvgId (trimCh l), trimCh nxt⟩ ::
            parseLines (nxt :: rest2)
        else parseLines (nxt :: rest2)
      else parseLines (nxt :: rest2) := rfl

theorem mkChanRec_eq (a b : List Char) :
    mkChanRec (a, b) =
      if startsWithExtinf (trimCh a) = true ∧ extractName (trimCh a) ≠ [] ∧
          trimCh b ≠ [] then
        some ⟨extractName (trimCh a), extractTvgId (trimCh a), trimCh b⟩
      else none := rfl

theorem parseLines_eq_spec :
    ∀ ls : List (List Char),
      parseLines ls = (ls.zip (ls.drop 1 ++ [[]])).filterMap mkChanRec := by
  intro ls
  induction ls with
  | nil => rfl
  | cons l rest ih =>
    cases rest with
    | nil =>
      have hmk0 : mkChanRec (l, []) = none := by
        rw [mkChanRec_eq]
        exact if_neg (fun hh => hh.2.2 rfl)
      have hz0 : ([l].zip (([l] : List (List Char)).drop 1 ++ [[]])) = [(l, ([] : List Char))] := rfl
      rw [hz0]
      simp only [List.filterMap_cons, hmk0, List.filterMap_nil]
      by_cases h1 : startsWithExtinf (trimCh l) = true
      · rw [parseLines_single, if_pos h1, if_neg (fun hh => hh.2 rfl)]
      · rw [parseLines_single, if_neg h1]
    | cons nxt rest2 =>
      have hz : ((l :: nxt :: rest2).zip ((l :: nxt :: rest2).drop 1 ++ [[]])) =
          (l, nxt) :: ((nxt :: rest2).zip ((nxt :: rest2).drop 1 ++ [[]])) := rfl
      rw [hz]
      by_cases h1 : startsWithExtinf (trimCh l) = true
      · by_cases h2 : extractName (trimCh l) ≠ [] ∧ trimCh nxt ≠ []
        · have hmk : mkChanRec (l, nxt) =
              some ⟨extractName (trimCh l), extractTvgId (trimCh l), trimCh nxt⟩ := by
            rw [mkChanRec_eq]
            exact if_pos ⟨h1, h2.1, h2.2⟩
          rw [parseLines_cons_cons, if_pos h1, if_pos h2]
          simp only [List.filterMap_cons, hmk]
          rw [ih]
        · have hmk : mkChanRec (l, nxt) = none := by
            rw [mkChanRec_eq]
            exact if_neg (fun hh => h2 ⟨hh.2.1, hh.2.2⟩)
          rw [parseLines_cons_cons, if_pos h1, if_neg h2]
          simp only [List.filterMap_cons, hmk]
          exact ih
      · have hmk : mkChanRec (l, nxt) = none := by
          rw [mkChanRec_eq]
          exact if_neg (fun hh => h1 hh.1)
        rw [parseLines_cons_cons, if_neg h1]
        simp only [List.filterMap_cons, hmk]
        exact ih

theorem afterFirst_none_of_not_hasSub (pat : List Char) :
    ∀ l, hasSub l pat = false → afterFirst pat l = none := by
  intro l
  induction l with
  | nil =>
    intro h
    cases pat with
    | nil => simp [hasSub, List.isEmpty] at h
    | cons a as => simp [afterFirst, prefAt]
  | cons c cs ih =>
    intro h
    rw [hasSub, Bool.or_eq_false_iff] at h
    rw [afterFirst]
    rw [h.1]
    simp [ih h.2]

/-- C7: a channel record is produced for a directive line exactly when
the trailing name is non-empty and the trimmed following line is
non-empty (entries failing this are silently dropped), and a line that
does not contain the `tvg-id="` attribute yields the empty tvg-id. -/
theorem c7_parseM3U_records (content : List Char) :
    parseM3U content = parseM3Uspec content ∧
    ∀ line : List Char, hasSub line tvgAttr = false → extractTvgId line = [] := by
  constructor
  · rw [parseM3U, parseM3Uspec]
    exact parseLines_eq_spec (splitNl content)
  · intro line h
    rw [extractTvgId, afterFirst_none_of_not_hasSub tvgAttr line h]

/-- Witness for C7: a directive with no tvg-id attribute parses with an
empty tvg-id, and a concrete two-line playlist parses identically to
its specification form. -/
theorem c7_parseM3U_records_witness :
    parseM3U "#EXTINF:-1,TF1\nhttp://x".toList =
      parseM3Uspec "#EXTINF:-1,TF1\nhttp://x".toList ∧
    extractTvgId "#EXTINF:-1,TF1".toList = [] :=
  ⟨(c7_parseM3U_records "#EXTINF:-1,TF1\nhttp://x".toList).1,
   (c7_parseM3U_records "#EXTINF:-1,TF1\nhttp://x".toList).2
     "#EXTINF:-1,TF1".toList (by decide)⟩

-- The parser keeps the records of the tail of the line list.

theorem parseLines_mono (x : PlaylistChannel) (l : List Char) :
    ∀ rest : List (List Char), x ∈ parseLines rest → x ∈ parseLines (l :: rest) := by
  intro rest hx
  cases rest with
  | nil => simp [parseLines] at hx
  | cons nxt rest2 =>
    by_cases h1 : startsWithExtinf (trimCh l) = true
    · by_cases h2 : extractName (trimCh l) ≠ [] ∧ trimCh nxt ≠ []
      · simp only [parseLines, h1, if_true, h2, if_pos h2]
        exact List.mem_cons_of_mem _ hx
      · simp only [parseLines, h1, if_true, if_neg h2]
        exact hx
    · simp only [parseLines, if_neg h1]
      exact hx

/-- C10: an #EXTINF line with a non-empty trailing name followed by any
non-blank line yields a channel whose stream URL is that following
line trimmed — even when the following line is itself another #EXTINF
directive. -/
theorem c10_directive_streamUrl (pre post : List (List Char)) (l nxt : List Char)
    (h1 : startsWithExtinf (trimCh l) = true)
    (h2 : extractName (trimCh l) ≠ [])
    (h3 : trimCh nxt ≠ []) :
    (⟨extractName (trimCh l), extractTvgId (trimCh l), trimCh nxt⟩ : PlaylistChannel) ∈
      parseLines (pre ++ l :: nxt :: post) := by
  induction pre with
  | nil =>
    simp only [List.nil_append]
    rw [parseLines_cons_cons, if_pos h1, if_pos ⟨h2, h3⟩]
    exact List.mem_cons_self _ _
  | cons q pre ih =>
    rw [List.cons_append]
    exact parseLines_mono _ q _ ih

/-- Witness for C10: the kept entry whose stream URL is the text of the
next #EXTINF directive. -/
theorem c10_directive_streamUrl_witness :
    (⟨"A".toList, [], "#EXTINF:-1,B".toList⟩ : PlaylistChannel) ∈
      parseLines ["#EXTINF:-1,A".toList, "#EXTINF:-1,B".toList, "http://b".toList] := by
  have h := c10_directive_streamUrl [] ["http://b".toList]
    "#EXTINF:-1,A".toList "#EXTINF:-1,B".toList (by decide) (by decide) (by decide)
  exact (show (⟨extractName (trimCh "#EXTINF:-1,A".toList),
      extractTvgId (trimCh "#EXTINF:-1,A".toList),
      trimCh "#EXTINF:-1,B".toList⟩ : PlaylistChannel) =
      ⟨"A".toList, [], "#EXTINF:-1,B".toList⟩ from by decide) ▸ h

-- Concrete evaluation of the boundary example "Arte HD" vs "ArteFR".

theorem fuzzy_arte_cast : fuzzyMatch "Arte HD".toList "ArteFR".toList =
    (((6:ℕ):ℚ) - ((2:ℕ):ℚ)) / ((6:ℕ):ℚ) := rfl

theorem fuzzy_arte_eq : fuzzyMatch "Arte HD".toList "ArteFR".toList = 2/3 := by
  rw [fuzzy_arte_cast]
  norm_num

theorem match_arte_eq :
    matchChannels [⟨"Arte HD".toList, [], "u".toList⟩]
        [⟨"Arte.fr".toList, "ArteFR".toList⟩] =
      ([⟨"Arte HD".toList, [], "Arte.fr".toList, "ArteFR".toList,
          fuzzyMatch "Arte HD".toList "ArteFR".toList, "u".toList⟩], []) := by
  have hgt0 : fuzzyMatch "Arte HD".toList "ArteFR".toList > 0 ∧
      fuzzyMatch "Arte HD".toList "ArteFR".toList > 6/10 := by
    rw [fuzzy_arte_eq]
    constructor <;> norm_num
  have hfb : findBest ⟨"Arte HD".toList, [], "u".toList⟩
      [⟨"Arte.fr".toList, "ArteFR".toList⟩] =
      (some ⟨"Arte.fr".toList, "ArteFR".toList⟩,
        fuzzyMatch "Arte HD".toList "ArteFR".toList) := by
    rw [findBest, findAux_step, if_pos hgt0]
    rfl
  simp only [matchChannels, hfb]

/-- C2 (amended): `fuzzyMatch("Arte HD", "ArteFR")` equals (6-2)/6 = 2/3
(about 0.6667) via the edit-distance branch, and the threshold check
classifies this score as accepted — 2/3 is strictly greater than 0.6 —
so the matcher records the pair as a match with score 2/3. -/
theorem c2_boundary_arte :
    fuzzyMatch "Arte HD".toList "ArteFR".toList = 2/3 ∧
    (6:ℚ)/10 < fuzzyMatch "Arte HD".toList "ArteFR".toList ∧
    (matchChannels [⟨"Arte HD".toList, [], "u".toList⟩]
        [⟨"Arte.fr".toList, "ArteFR".toList⟩]).1.map (fun m => m.score) = [2/3] ∧
    (matchChannels [⟨"Arte HD".toList, [], "u".toList⟩]
        [⟨"Arte.fr".toList, "ArteFR".toList⟩]).2 = [] := by
  refine ⟨fuzzy_arte_eq, ?_, ?_, ?_⟩
  · rw [fuzzy_arte_eq]
    norm_num
  · rw [match_arte_eq]
    exact congrArg (fun q => [q]) fuzzy_arte_eq
  · rw [match_arte_eq]

/-- C2 counterexample: contrary to the claim, the score of the pair
("Arte HD", "ArteFR") is NOT rejected: it is strictly above the 0.6
threshold and the playlist channel does not land in unmatched. -/
theorem c2_boundary_arte_cex :
    ¬ (fuzzyMatch "Arte HD".toList "ArteFR".toList ≤ 6/10) ∧
    (matchChannels [⟨"Arte HD".toList, [], "u".toList⟩]
        [⟨"Arte.fr".toList, "ArteFR".toList⟩]).2 = [] := by
  constructor
  · rw [fuzzy_arte_eq]
    norm_num
  · rw [match_arte_eq]

/-- C4 counterexample: for the inputs "a" and "!" the normalized forms
are "a" and "" — unequal, with exactly one empty — yet fuzzyMatch
returns 0.8 through the substring branch (the empty string is a
substring of everything), not 0 through the edit-distance branch as the
claim states. -/
theorem c4_substring_cex :
    normalize "!".toList = [] ∧ normalize "a".toList ≠ [] ∧
    fuzzyMatch "a".toList "!".toList = 8/10 :=
  ⟨rfl, by decide, rfl⟩

/-- C4 (amended): when the normalized forms differ, containment of one
normalized form in the other — the empty string included — yields
exactly 0.8; in particular when exactly one normalized form is empty
the substring rule does apply and the result is 0.8, not an
edit-distance score.  (The converse direction does not hold: the
edit-distance branch can also produce 0.8.) -/
theorem c4_substring_branch (a b : List Char)
    (hne : normalize a ≠ normalize b) :
    ((hasSub (normalize a) (normalize b) || hasSub (normalize b) (normalize a)) = true →
      fuzzyMatch a b = 8/10) ∧
    (normalize b = [] → fuzzyMatch a b = 8/10) := by
  constructor
  · intro h
    rw [fuzzyMatch, fuzzyCore, if_neg hne, if_pos h]
  · intro hb
    have h : (hasSub (normalize a) (normalize b) ||
        hasSub (normalize b) (normalize a)) = true := by
      rw [hb]
      cases hx : normalize a with
      | nil => exact absurd (hx.trans hb.symm) hne
      | cons c cs => simp [hasSub, prefAt]
    rw [fuzzyMatch, fuzzyCore, if_neg hne, if_pos h]

/-- Witness for C4 (amended): "France 2" vs "France2.fr" — normalized
"france2" is contained in "france2fr", so the score is exactly 0.8. -/
theorem c4_substring_branch_witness :
    fuzzyMatch "France 2".toList "France2.fr".toList = 8/10 :=
  (c4_substring_branch "France 2".toList "France2.fr".toList (by decide)).1 (by decide)

-- Override table lemmas.

theorem assocFind_mem (k v : List Char) :
    ∀ l : List (List Char × List Char), assocFind k l = some v → (k, v) ∈ l := by
  intro l
  induction l with
  | nil => intro h; simp [assocFind] at h
  | cons p rest ih =>
    obtain ⟨k2, v2⟩ := p
    intro h
    rw [assocFind] at h
    by_cases hk : k = k2
    · rw [if_pos hk] at h
      have hv : v2 = v := by injection h
      subst hk; subst hv
      exact List.mem_cons_self _ _
    · rw [if_neg hk] at h
      exact List.mem_cons_of_mem _ (ih h)

theorem manualMappings_values_ne_nil :
    ∀ p ∈ manualMappings, p.2 ≠ ([] : List Char) := by decide

theorem lookupMM_ne_nil (k v : List Char) (h : lookupMM k = some v) : v ≠ [] :=
  manualMappings_values_ne_nil (k, v) (assocFind_mem k v manualMappings h)

theorem jsOr_some (v b : List Char) : jsOr (some v) b = if v.isEmpty then b else v := rfl

theorem jsOr_none (b : List Char) : jsOr none b = b := rfl

theorem isEmpty_false_of_ne_nil (v : List Char) (h : v ≠ []) : v.isEmpty = false := by
  cases v with
  | nil => exact absurd rfl h
  | cons c cs => rfl

/-- The source lookup chain agrees with its specification reading, and
its result is non-empty exactly when one of the two lookups succeeds. -/
theorem resolveTvgId_cases (name : List Char) :
    resolveTvgId name = overrideSpecLookup name ∧
    ((resolveTvgId name).isEmpty = false ↔
      ((lookupMM (cleanNameOf name)).isSome ∨ (lookupMM name).isSome)) := by
  cases h1 : lookupMM (cleanNameOf name) with
  | some v =>
    have hne : v.isEmpty = false := isEmpty_false_of_ne_nil v (lookupMM_ne_nil _ _ h1)
    have hres : resolveTvgId name = v := by
      rw [resolveTvgId, h1, jsOr_some, hne]
      simp
    constructor
    · rw [hres, overrideSpecLookup, h1]
    · rw [hres, hne]
      simp [h1]
  | none =>
    cases h2 : lookupMM name with
    | some w =>
      have hne : w.isEmpty = false := isEmpty_false_of_ne_nil w (lookupMM_ne_nil _ _ h2)
      have hres : resolveTvgId name = w := by
        rw [resolveTvgId, h1, h2, jsOr_none, jsOr_some, hne]
        simp
      constructor
      · rw [hres, overrideSpecLookup, h1, h2]
      · rw [hres, hne]
        simp [h1, h2]
    | none =>
      have hres : resolveTvgId name = [] := by
        rw [resolveTvgId, h1, h2, jsOr_none, jsOr_none]
      constructor
      · rw [hres, overrideSpecLookup, h1, h2]
      · rw [hres]
        simp [h1, h2]

theorem parseLines2_cons (l : List Char) (rest : List (List Char)) :
    parseLines2 (l :: rest) =
      if startsWithExtinf (trimCh l) = true then
        if extractName (trimCh l) ≠ [] ∧
            (match rest with | [] => ([] : List Char) | nxt :: _ => trimCh nxt) ≠ [] then
          ⟨extractName (trimCh l), cleanNameOf (extractName (trimCh l)),
            resolveTvgId (extractName (trimCh l)),
            (match rest with | [] => ([] : List Char) | nxt :: _ => trimCh nxt),
            !(resolveTvgId (extractName (trimCh l))).isEmpty⟩ :: parseLines2 rest
        else parseLines2 rest
      else parseLines2 rest := rfl

/-- C6: the Override Resolver cleans "TF1 HD (1080p)" to "TF1 HD", and
every mapped channel carries the cleaned name of its original name, the
id resolved by looking up the cleaned name first and the original name
second, and a hasTvgId flag that is set exactly when one of the two
lookups succeeded. -/
theorem c6_override_resolution (content : List Char) :
    cleanNameOf "TF1 HD (1080p)".toList = "TF1 HD".toList ∧
    ∀ ch ∈ parseM3Uv2 content,
      ch.cleanName = cleanNameOf ch.originalName ∧
      ch.tvgId = overrideSpecLookup ch.originalName ∧
      (ch.hasTvgId = true ↔
        ((lookupMM (cleanNameOf ch.originalName)).isSome ∨
          (lookupMM ch.originalName).isSome)) := by
  constructor
  · decide
  · rw [parseM3Uv2]
    generalize splitNl content = ls
    induction ls with
    | nil => intro ch hch; simp [parseLines2] at hch
    | cons l rest ih =>
      intro ch hch
      rw [parseLines2_cons] at hch
      by_cases h1 : startsWithExtinf (trimCh l) = true
      · rw [if_pos h1] at hch
        by_cases h2 : extractName (trimCh l) ≠ [] ∧
            (match rest with | [] => ([] : List Char) | nxt :: _ => trimCh nxt) ≠ []
        · rw [if_pos h2] at hch
          rcases List.mem_cons.1 hch with rfl | hch2
          · refine ⟨rfl, (resolveTvgId_cases (extractName (trimCh l))).1, ?_⟩
            rw [show (⟨extractName (trimCh l), cleanNameOf (extractName (trimCh l)),
                resolveTvgId (extractName (trimCh l)),
                (match rest with | [] => ([] : List Char) | nxt :: _ => trimCh nxt),
                !(resolveTvgId (extractName (trimCh l))).isEmpty⟩ :
                  MappedChannel).hasTvgId =
              !(resolveTvgId (extractName (trimCh l))).isEmpty from rfl]
            rw [Bool.not_eq_true']
            exact (resolveTvgId_cases (extractName (trimCh l))).2
          · exact ih ch hch2
        · rw [if_neg h2] at hch
          exact ih ch hch
      · rw [if_neg h1] at hch
        exact ih ch hch

/-- Witness for C6: the channel parsed from a concrete playlist entry
"TF1 HD (1080p)" resolves through the cleaned name to "TF1.fr". -/
theorem c6_override_resolution_witness :
    (⟨"TF1 HD (1080p)".toList, "TF1 HD".toList, "TF1.fr".toList,
        "http://x".toList, true⟩ : MappedChannel) ∈
      parseM3Uv2 "#EXTINF:-1,TF1 HD (1080p)\nhttp://x".toList ∧
    "TF1.fr".toList =
      overrideSpecLookup "TF1 HD (1080p)".toList := by
  have hmem : (⟨"TF1 HD (1080p)".toList, "TF1 HD".toList, "TF1.fr".toList,
      "http://x".toList, true⟩ : MappedChannel) ∈
      parseM3Uv2 "#EXTINF:-1,TF1 HD (1080p)\nhttp://x".toList := by decide
  exact ⟨hmem,
    ((c6_override_resolution "#EXTINF:-1,TF1 HD (1080p)\nhttp://x".toList).2 _ hmem).2.1⟩

/-- C8: the clean playlist emits every channel with hasTvgId in the
resolved section, emits at most the first ten channels without
hasTvgId (in input order) in the unresolved section, and prefixes each
section with a comment header line. -/
theorem c8_generateCleanM3U (cs : List MappedChannel) :
    (generateCleanM3U cs).2.1 = cs.filter (fun ch => ch.hasTvgId) ∧
    (generateCleanM3U cs).2.2 = cs.filter (fun ch => !ch.hasTvgId) ∧
    (generateCleanM3U cs).1 =
      [correctedHeader, [], "# CHANNELS WITH EPG".toList] ++
        (cs.filter (fun ch => ch.hasTvgId)).flatMap
          (fun ch => [cleanLineG ch, ch.streamUrl]) ++
        [[], "# CHANNELS WITHOUT EPG".toList] ++
        ((cs.filter (fun ch => !ch.hasTvgId)).take 10).flatMap
          (fun ch => [cleanLineU ch, ch.streamUrl]) ∧
    (∀ ch ∈ cs, ch.hasTvgId = true → ch ∈ (generateCleanM3U cs).2.1) ∧
    ((cs.filter (fun ch => !ch.hasTvgId)).take 10).length ≤ 10 := by
  refine ⟨rfl, rfl, ?_, ?_, ?_⟩
  · show ((cs.filter (fun ch => !ch.hasTvgId)).take 10).foldl
        (fun acc ch => acc ++ [cleanLineU ch, ch.streamUrl])
        ((cs.filter (fun ch => ch.hasTvgId)).foldl
          (fun acc ch => acc ++ [cleanLineG ch, ch.streamUrl])
          [correctedHeader, [], "# CHANNELS WITH EPG".toList] ++
          [[], "# CHANNELS WITHOUT EPG".toList]) = _
    rw [foldl_append_lines, foldl_append_lines]
  · intro ch hch hid
    exact List.mem_filter.2 ⟨hch, hid⟩
  · have h := List.length_take 10 (cs.filter (fun ch => !ch.hasTvgId))
    omega

/-- Witness for C8: a concrete resolved channel appears in the resolved
partition of the clean playlist. -/
theorem c8_generateCleanM3U_witness :
    (⟨"TF1".toList, "TF1".toList, "TF1.fr".toList, "u".toList, true⟩ : MappedChannel) ∈
      (generateCleanM3U
        [⟨"TF1".toList, "TF1".toList, "TF1.fr".toList, "u".toList, true⟩]).2.1 :=
  (c8_generateCleanM3U
      [⟨"TF1".toList, "TF1".toList, "TF1.fr".toList, "u".toList, true⟩]).2.2.2.1
    ⟨"TF1".toList, "TF1".toList, "TF1.fr".toList, "u".toList, true⟩
    (List.mem_cons_self _ _) rfl

end Matcher
